/-
  Verification of the Fetch request handling of the kafka layer
  (src/v/kafka/requests/fetch_request.h), as a shallow embedding.

  Machine integers are modelled as `Int` (for the C++ signed `int32_t`
  fields) and `Nat` (for `size_t` fields), with the relevant casts made
  explicit (`size_t_of_int32`, `int32_of_size_t`).  An `iobuf` is
  modelled as a byte list, of which only `size_bytes` is used by the
  code under study.  Vector iterators are modelled as positional
  indices into the corresponding lists.
-/
import Mathlib

namespace Kafka

/-- An `iobuf`: the fetch code only ever asks for its size. -/
structure iobuf where
  bytes : List Nat
deriving Repr, DecidableEq

def iobuf.size_bytes (b : iobuf) : Nat := b.bytes.length

/- The `static constexpr` members of `struct fetch_api`
   (fetch_request.h lines 27-37). -/
namespace fetch_api

def key : Int := 1

def min_supported : Int := 4

def max_supported : Int := 10

end fetch_api

/-- Conversion `size_t(x)` for an `int32_t` value `x`: conversion to the unsigned
    64-bit type reduces the value modulo 2^64 (C++ conv.integral). -/
def size_t_of_int32 (x : Int) : Nat := (x % (2 : Int) ^ 64).toNat

/-- Conversion `static_cast<int32_t>(n)` for a `size_t` value `n`: reduce modulo
    2^32 and reinterpret as a signed two's-complement value. -/
def int32_of_size_t (n : Nat) : Int :=
  if n % 2 ^ 32 < 2 ^ 31 then ((n % 2 ^ 32 : Nat) : Int)
  else ((n % 2 ^ 32 : Nat) : Int) - 2 ^ 32

namespace fetch_request

/-- Struct `fetch_request::partition` (fetch_request.h lines 42-49). -/
structure partition where
  id : Int
  current_leader_epoch : Int
  fetch_offset : Int
  log_start_offset : Int
  partition_max_bytes : Int
deriving Repr, DecidableEq

/-- Struct `fetch_request::topic` (fetch_request.h lines 51-54). -/
structure topic where
  name : String
  partitions : List partition
deriving Repr, DecidableEq

/-- Struct `fetch_request::forgotten_topic` (fetch_request.h lines 56-59). -/
structure forgotten_topic where
  name : String
  partitions : List Int
deriving Repr, DecidableEq

end fetch_request

/-- Fields of `struct fetch_request` (fetch_request.h lines 39-180), fields only;
    `max_wait_time` is the count of milliseconds. -/
structure fetch_request where
  replica_id : Int
  max_wait_time : Int
  min_bytes : Int
  max_bytes : Int
  isolation_level : Int
  session_id : Int
  session_epoch : Int
  topics : List fetch_request.topic
  forgotten_topics : List fetch_request.forgotten_topic
deriving Repr, DecidableEq

/-- Member `fetch_request::debounce_delay` (fetch_request.h lines 78-84). -/
def fetch_request.debounce_delay (r : fetch_request) : Option Int :=
  if r.max_wait_time ≤ 0 then none else some r.max_wait_time

namespace fetch_response

/-- Struct `fetch_response::partition_response` (fetch_request.h lines 192-200).
    The `error` field carries the numeric error code; `0` is
    `error_code::none` (success). -/
structure partition_response where
  id : Int
  error : Int
  high_watermark : Int
  last_stable_offset : Int
  log_start_offset : Int
  record_set : Option iobuf
deriving Repr, DecidableEq

/-- Struct `fetch_response::partition` (fetch_request.h lines 202-208): one
    per-topic group of partition responses. -/
structure partition where
  name : String
  responses : List partition_response
deriving Repr, DecidableEq

end fetch_response

/-- Fields of `struct fetch_response` (fetch_request.h lines 184-221). -/
structure fetch_response where
  throttle_time : Int := 0
  error : Int := 0
  session_id : Int := 0
  partitions : List fetch_response.partition := []
deriving Repr, DecidableEq

/-- State of `struct op_context` (fetch_request.h lines 228-291), the per-call
    orchestration state.  `rctx`/`ssg` are transport handles with no
    bearing on the verified logic.  The `deadline` field of the source
    is `now() + delay`; absolute time is not modelled, so the field
    keeps the optional delay itself (presence is what the logic
    inspects). -/
structure op_context where
  request : fetch_request
  response : fetch_response
  bytes_left : Nat
  deadline : Option Int
  response_size : Nat
  response_error : Bool
  initial_fetch : Bool
deriving Repr, DecidableEq

/-- Constant `MAX_SIZE = 128 << 20` (fetch_request.h line 267). -/
def MAX_SIZE : Nat := 128 <<< 20

/-- The `op_context` constructor (fetch_request.h lines 245-269), after
    the wire decode has produced `req`:  budgets and the deadline are
    initialized from the decoded request. -/
def op_context_init (req : fetch_request) : op_context :=
  { request := req
    response := {}
    bytes_left := min MAX_SIZE (size_t_of_int32 req.max_bytes)
    deadline := req.debounce_delay
    response_size := 0
    response_error := false
    initial_fetch := true }

/-- Member `op_context::start_response_topic` (fetch_request.h lines 272-275). -/
def start_response_topic (st : op_context) (t : fetch_request.topic) :
    op_context :=
  { st with
    response := { st.response with
      partitions := st.response.partitions ++ [⟨t.name, []⟩] } }

/-- Operation `vec.back().responses.push_back(r)`: append to the last group of a
    non-empty list of topic groups. -/
def append_to_back (ps : List fetch_response.partition)
    (r : fetch_response.partition_response) : List fetch_response.partition :=
  match ps with
  | [] => []
  | [p] => [{ p with responses := p.responses ++ [r] }]
  | p :: rest => p :: append_to_back rest r

/-- Member `op_context::add_partition_response` (fetch_request.h lines 278-284).
    `response.partitions.back()` on an empty vector is undefined
    behaviour, modelled by returning `none`. -/
def add_partition_response (st : op_context)
    (r : fetch_response.partition_response) : Option op_context :=
  if st.response.partitions.isEmpty then none
  else
    let st1 := match r.record_set with
      | some b =>
        { st with
          response_size := st.response_size + b.size_bytes
          bytes_left := st.bytes_left - min st.bytes_left b.size_bytes }
      | none => st
    some { st1 with
      response := { st1.response with
        partitions := append_to_back st1.response.partitions r } }

namespace fetch_request

/-- Cursor state of `fetch_request::const_iterator` (fetch_request.h
    lines 100-171).  The source holds vector iterators; they are
    modelled as positional indices into the request's `topics` list
    (`topic_pos`) and the current topic's `partitions` list
    (`part_pos`), with `topics.length` playing the role of `t_end_`. -/
structure const_iterator where
  new_topic : Bool
  topic_pos : Nat
  part_pos : Nat
deriving Repr, DecidableEq

/-- Member `const_iterator::normalize` (fetch_request.h lines 157-167):
    while the partition cursor sits at the end of the current topic's
    partitions, advance to the next topic (raising `new_topic`) until a
    non-empty topic or the end of the topic list is reached. -/
def normalize (topics : List topic) (it : const_iterator) : const_iterator :=
  if h : it.topic_pos < topics.length then
    if it.part_pos = (topics.get ⟨it.topic_pos, h⟩).partitions.length then
      normalize topics ⟨true, it.topic_pos + 1, 0⟩
    else it
  else it
termination_by topics.length - it.topic_pos
decreasing_by omega

/-- Member `fetch_request::cbegin` together with the `const_iterator`
    constructor (fetch_request.h lines 116-123, 173-175): start at the
    first topic with the `new_topic` flag raised and normalize; when the
    topic list is empty the partition cursor stays unset (`0` here). -/
def cbegin (topics : List topic) : const_iterator :=
  if topics.isEmpty then { new_topic := true, topic_pos := 0, part_pos := 0 }
  else normalize topics { new_topic := true, topic_pos := 0, part_pos := 0 }

/-- Member `fetch_request::cend` (fetch_request.h lines 177-179): both
    cursors at the end of the topic list. -/
def cend (topics : List topic) : const_iterator :=
  { new_topic := true, topic_pos := topics.length, part_pos := 0 }

/-- Member `const_iterator::operator++` (fetch_request.h lines 129-134):
    step the partition cursor, clear `new_topic`, normalize. -/
def iter_next (topics : List topic) (it : const_iterator) : const_iterator :=
  normalize topics
    { new_topic := false, topic_pos := it.topic_pos, part_pos := it.part_pos + 1 }

/-- Member `const_iterator::operator==` (fetch_request.h lines 141-150):
    equal topic positions, and when not at the end also equal partition
    positions. -/
def iter_eq (topics : List topic) (a b : const_iterator) : Bool :=
  if a.topic_pos = b.topic_pos then
    if a.topic_pos = topics.length then true
    else decide (a.part_pos = b.part_pos)
  else false

/-- Total number of partitions across all topics of a request. -/
def total_partitions (topics : List topic) : Nat :=
  (topics.map (fun t => t.partitions.length)).sum

/-- The values yielded by the loop `for (it = ...; it != cend; ++it)`
    dereferencing the iterator at each step, with enough `fuel` for the
    remaining steps; each value is `(new_topic, topic name, partition)`
    (fetch_request.h lines 105-109, 125-127). -/
def traverse_from (topics : List topic) :
    Nat → const_iterator → List (Bool × String × partition)
  | 0, _ => []
  | fuel + 1, it =>
    if h : it.topic_pos < topics.length then
      let t := topics.get ⟨it.topic_pos, h⟩
      if h2 : it.part_pos < t.partitions.length then
        (it.new_topic, t.name, t.partitions.get ⟨it.part_pos, h2⟩)
          :: traverse_from topics fuel (iter_next topics it)
      else []
    else []

/-- The full traversal of a request's partitions from `cbegin`. -/
def traverse (topics : List topic) : List (Bool × String × partition) :=
  traverse_from topics (total_partitions topics) (cbegin topics)

/-- The traversal the spec describes: topics in sequence order,
    partitions within a topic in sequence order, topics with zero
    partitions skipped, and the flag raised exactly on the first
    partition of each non-empty topic. -/
def flatten_spec (topics : List topic) : List (Bool × String × partition) :=
  topics.flatMap (fun t =>
    match t.partitions with
    | [] => []
    | p :: ps => (true, t.name, p) :: ps.map (fun q => (false, t.name, q)))

end fetch_request

/-- Member `op_context::should_stop_fetch` (fetch_request.h lines 286-290);
    note the `static_cast<int32_t>(response_size)` in the comparison
    against `min_bytes`. -/
def should_stop_fetch (st : op_context) : Bool :=
  st.request.debounce_delay.isNone
    || decide (st.request.min_bytes ≤ int32_of_size_t st.response_size)
    || st.request.topics.isEmpty
    || st.response_error

/-- Size in bytes of a partition result's payload: the size of the
    record set when present, `0` when absent (an absent record set
    contributes nothing to the accounting in `add_partition_response`). -/
def payload_bytes (r : fetch_response.partition_response) : Nat :=
  match r.record_set with
  | some b => b.size_bytes
  | none => 0

/-- One observable mutation of an `op_context` during the fetch fold:
    either a new response topic group is started, or a partition read
    result is added. -/
inductive fetch_event where
  | start_topic (t : fetch_request.topic)
  | add_result (r : fetch_response.partition_response)

/-- Apply one `fetch_event` to the context. -/
def fetch_step (st : op_context) : fetch_event → Option op_context
  | .start_topic t => some (start_response_topic st t)
  | .add_result r => add_partition_response st r

/-- Apply a sequence of `fetch_event`s to the context. -/
def fetch_run (st : op_context) : List fetch_event → Option op_context
  | [] => some st
  | e :: es =>
    match fetch_step st e with
    | some st1 => fetch_run st1 es
    | none => none

/-- Decides whether every `add_result` of the trace carries a payload of
    at most the `bytes_left` budget remaining when it is folded (as when
    partition reads honor a strict byte cap derived from the budget). -/
def capped_trace (st : op_context) : List fetch_event → Bool
  | [] => true
  | e :: es =>
    (match e with
      | .start_topic _ => true
      | .add_result r => decide (payload_bytes r ≤ st.bytes_left))
    && (match fetch_step st e with
        | some st1 => capped_trace st1 es
        | none => true)

/-- Modelled from the spec: the per-partition read fold of the fetch
    handler (in the repository's fetch implementation file, which is not
    under src/) appends the result through `add_partition_response` and
    then sets the error-observed flag when the result's error code is
    non-success ("if its error code is non-success, set errorObserved"). -/
def fold_read_result (st : op_context)
    (r : fetch_response.partition_response) : Option op_context :=
  (add_partition_response st r).map fun st1 =>
    { st1 with response_error := st1.response_error || decide (r.error ≠ 0) }

/-- Protocol-level decode failures. -/
inductive decode_error where
  | unsupported_version
  | malformed
deriving Repr, DecidableEq

/-- Modelled from the spec: the decode path of a fetch request (the
    dispatch layer and the body of `fetch_request::decode`, which are
    not under src/) rejects a version outside the range
    `[min_supported, max_supported]` as a protocol violation before any
    field is parsed; the field parser is abstracted as `parse_fields`.
    The version bounds themselves come from `fetch_api` in the source. -/
def decode_request (version : Int)
    (parse_fields : Unit → Except decode_error fetch_request) :
    Except decode_error fetch_request :=
  if version < fetch_api.min_supported ∨ fetch_api.max_supported < version then
    .error .unsupported_version
  else parse_fields ()

/-
  Theorems.
-/

/-- Appending through the back of a list decomposed as `pre ++ [last]`
    rewrites only the last group. -/
theorem append_to_back_eq (pre : List fetch_response.partition)
    (last : fetch_response.partition) (r : fetch_response.partition_response) :
    append_to_back (pre ++ [last]) r =
      pre ++ [{ last with responses := last.responses ++ [r] }] := by
  induction pre with
  | nil => rfl
  | cons p pre ih =>
    cases pre with
    | nil => rfl
    | cons q pre2 => exact congrArg (p :: ·) ih

/-- C7: the supported version range of the fetch request type is exactly
    4 through 10 inclusive, and decoding with a version outside that
    range (such as version 3) fails with a protocol-version error
    independently of the field parser, i.e. before any field is
    parsed. -/
theorem c7_version_range :
    fetch_api.min_supported = 4 ∧ fetch_api.max_supported = 10 ∧
    (∀ parse_fields, decode_request 3 parse_fields =
        .error .unsupported_version) ∧
    (∀ (v : Int) parse_fields,
        v < fetch_api.min_supported ∨ fetch_api.max_supported < v →
        decode_request v parse_fields = .error .unsupported_version) := by
  refine ⟨rfl, rfl, fun p => ?_, fun v p hv => ?_⟩
  · unfold decode_request
    rw [if_pos]
    exact Or.inl (by decide)
  · unfold decode_request
    rw [if_pos hv]

/-- Witness for C7 at the concrete version 11 and a concrete parser. -/
theorem c7_witness :
    decode_request 11 (fun _ => .error .malformed) =
      .error .unsupported_version :=
  c7_version_range.2.2.2 11 (fun _ => .error .malformed) (by decide)

/-- C8: a request with `min_bytes <= 0` always stops the fetch, even
    with an empty accumulated response and no observed error, so it
    never long-polls regardless of `max_wait_time`. -/
theorem c8_min_bytes_nonpositive_stops (st : op_context)
    (hmin : st.request.min_bytes ≤ 0) (hsz : st.response_size = 0)
    ( _herr : st.response_error = false) :
    should_stop_fetch st = true := by
  have hcast : int32_of_size_t st.response_size = 0 := by
    rw [hsz]; decide
  have hdec : decide
      (st.request.min_bytes ≤ int32_of_size_t st.response_size) = true := by
    rw [hcast]
    exact decide_eq_true hmin
  unfold should_stop_fetch
  rw [hdec]
  simp

/-- Witness for C8 at a concrete state with `min_bytes = -5` and a
    positive `max_wait_time`. -/
theorem c8_witness :
    should_stop_fetch
      { request := ⟨0, 500, -5, 1000, 0, 0, 0, [⟨"a", []⟩], []⟩
        response := {}
        bytes_left := 1000
        deadline := some 500
        response_size := 0
        response_error := false
        initial_fetch := true } = true :=
  c8_min_bytes_nonpositive_stops _ (by decide) (by decide) (by decide)

/-- C9: a negative `max_bytes` is converted to `size_t` by wrapping
    modulo 2^64, giving a value of at least 2^63, so `bytes_left` is
    seeded with the full 128 MiB ceiling. -/
theorem c9_negative_max_bytes_wraps (req : fetch_request)
    (h1 : -(2 ^ 31) ≤ req.max_bytes) (h2 : req.max_bytes < 0) :
    2 ^ 63 ≤ size_t_of_int32 req.max_bytes ∧
      (op_context_init req).bytes_left = 128 * 2 ^ 20 := by
  have hm : req.max_bytes % (2 : Int) ^ 64 = req.max_bytes + 2 ^ 64 := by
    omega
  have hge : 2 ^ 63 ≤ size_t_of_int32 req.max_bytes := by
    unfold size_t_of_int32
    rw [hm]
    omega
  refine ⟨hge, ?_⟩
  show min MAX_SIZE (size_t_of_int32 req.max_bytes) = 128 * 2 ^ 20
  have hmax : MAX_SIZE = 128 * 2 ^ 20 := by
    unfold MAX_SIZE
    rw [Nat.shiftLeft_eq]
  rw [hmax]
  omega

/-- Witness for C9 at the concrete request value `max_bytes = -1`. -/
theorem c9_witness :
    2 ^ 63 ≤ size_t_of_int32 (-1) ∧
      (op_context_init ⟨0, 0, 0, -1, 0, 0, 0, [], []⟩).bytes_left
        = 128 * 2 ^ 20 :=
  c9_negative_max_bytes_wraps ⟨0, 0, 0, -1, 0, 0, 0, [], []⟩
    (by decide) (by decide)

/-- C5: folding a partition result whose payload has size `s` turns
    `bytes_left = b` into `b - min(b, s)`, which as an integer is
    `max 0 (b - s)`: the budget subtraction saturates and is never
    negative. -/
theorem c5_bytes_left_saturating (st : op_context)
    (r : fetch_response.partition_response) (b : iobuf) (st1 : op_context)
    (hrec : r.record_set = some b)
    (hadd : add_partition_response st r = some st1) :
    st1.bytes_left = st.bytes_left - min st.bytes_left b.size_bytes ∧
      (st1.bytes_left : Int) =
        max 0 ((st.bytes_left : Int) - (b.size_bytes : Int)) := by
  unfold add_partition_response at hadd
  by_cases hemp : st.response.partitions.isEmpty
  · simp [hemp] at hadd
  · simp only [hemp, if_false, hrec, Bool.false_eq_true, Option.some.injEq]
      at hadd
    subst hadd
    refine ⟨rfl, ?_⟩
    dsimp only
    omega

/-- Witness for C5 at a concrete fold: budget 100, payload 300. -/
theorem c5_witness :
    ({ request := ⟨0, 0, 0, 0, 0, 0, 0, [], []⟩
       response := { partitions := [⟨"t", [⟨0, 0, 0, 0, 0, some ⟨[7, 7, 7]⟩⟩]⟩] }
       bytes_left := 97
       deadline := none
       response_size := 3
       response_error := false
       initial_fetch := true } : op_context).bytes_left
        = 100 - min 100 3 ∧
      ((97 : Nat) : Int) = max 0 ((100 : Int) - ((3 : Nat) : Int)) := by
  have := c5_bytes_left_saturating
    { request := ⟨0, 0, 0, 0, 0, 0, 0, [], []⟩
      response := { partitions := [⟨"t", []⟩] }
      bytes_left := 100
      deadline := none
      response_size := 0
      response_error := false
      initial_fetch := true }
    ⟨0, 0, 0, 0, 0, some ⟨[7, 7, 7]⟩⟩ ⟨[7, 7, 7]⟩
    { request := ⟨0, 0, 0, 0, 0, 0, 0, [], []⟩
      response := { partitions := [⟨"t", [⟨0, 0, 0, 0, 0, some ⟨[7, 7, 7]⟩⟩]⟩] }
      bytes_left := 97
      deadline := none
      response_size := 3
      response_error := false
      initial_fetch := true }
    rfl rfl
  exact this

/-- C10: `add_partition_response` is defined exactly when the response
    already holds at least one topic group — `op_context` starts with
    none, and each `start_response_topic` adds one — and, when defined,
    it appends the result to the most recently started group. -/
theorem c10_append_to_back :
    (∀ (st : op_context) (r : fetch_response.partition_response),
        (add_partition_response st r).isSome ↔ st.response.partitions ≠ []) ∧
    (∀ (st : op_context) (r : fetch_response.partition_response)
        (st1 : op_context), add_partition_response st r = some st1 →
        ∃ pre last, st.response.partitions = pre ++ [last] ∧
          st1.response.partitions =
            pre ++ [{ last with responses := last.responses ++ [r] }]) ∧
    (∀ req : fetch_request, (op_context_init req).response.partitions = []) ∧
    (∀ (st : op_context) (t : fetch_request.topic),
        (start_response_topic st t).response.partitions =
          st.response.partitions ++ [⟨t.name, []⟩]) := by
  refine ⟨fun st r => ?_, fun st r st1 hadd => ?_, fun req => rfl,
    fun st t => rfl⟩
  · unfold add_partition_response
    by_cases hemp : st.response.partitions.isEmpty
    · simp [hemp, List.isEmpty_iff.mp hemp]
    · simp only [hemp, Bool.false_eq_true, if_false]
      simp [List.isEmpty_iff] at hemp
      simp [hemp]
  · have hne : st.response.partitions ≠ [] := by
      intro hnil
      unfold add_partition_response at hadd
      rw [hnil] at hadd
      simp at hadd
    refine ⟨st.response.partitions.dropLast,
      st.response.partitions.getLast hne, ?_, ?_⟩
    · exact (List.dropLast_append_getLast hne).symm
    · unfold add_partition_response at hadd
      have hemp : st.response.partitions.isEmpty = false := by
        simpa [List.isEmpty_iff] using hne
      rw [hemp] at hadd
      have hback :
          append_to_back st.response.partitions r =
            st.response.partitions.dropLast ++
              [{ st.response.partitions.getLast hne with
                  responses :=
                    (st.response.partitions.getLast hne).responses ++ [r] }] := by
        conv_lhs => rw [← List.dropLast_append_getLast hne]
        exact append_to_back_eq _ _ r
      cases hrec : r.record_set with
      | none =>
        simp only [hrec, Bool.false_eq_true, if_false, Option.some.injEq]
          at hadd
        subst hadd
        exact hback
      | some b =>
        simp only [hrec, Bool.false_eq_true, if_false, Option.some.injEq]
          at hadd
        subst hadd
        exact hback

/-- Witness for C10: on a context holding the single started group
    `"t"`, adding a result is defined and lands in that group. -/
theorem c10_witness :
    ∃ pre last,
      ({ partitions := [⟨"t", []⟩] } : fetch_response).partitions
          = pre ++ [last] ∧
        ({ request := ⟨0, 0, 0, 0, 0, 0, 0, [], []⟩
           response := { partitions := [⟨"t", [⟨0, 0, 0, 0, 0, none⟩]⟩] }
           bytes_left := 5
           deadline := none
           response_size := 0
           response_error := false
           initial_fetch := true } : op_context).response.partitions
          = pre ++ [{ last with
              responses := last.responses ++ [⟨0, 0, 0, 0, 0, none⟩] }] :=
  c10_append_to_back.2.1
    { request := ⟨0, 0, 0, 0, 0, 0, 0, [], []⟩
      response := { partitions := [⟨"t", []⟩] }
      bytes_left := 5
      deadline := none
      response_size := 0
      response_error := false
      initial_fetch := true }
    ⟨0, 0, 0, 0, 0, none⟩
    { request := ⟨0, 0, 0, 0, 0, 0, 0, [], []⟩
      response := { partitions := [⟨"t", [⟨0, 0, 0, 0, 0, none⟩]⟩] }
      bytes_left := 5
      deadline := none
      response_size := 0
      response_error := false
      initial_fetch := true }
    rfl

/-- Counterexample for C3 as stated: folding a result whose error code
    is `1` (non-success) through `add_partition_response` leaves the
    error-observed flag `false` — the function itself never touches
    `response_error`. -/
theorem c3_counterexample :
    (1 : Int) ≠ 0 ∧
      (add_partition_response
          { request := ⟨0, 0, 0, 0, 0, 0, 0, [], []⟩
            response := { partitions := [⟨"t", []⟩] }
            bytes_left := 5
            deadline := none
            response_size := 0
            response_error := false
            initial_fetch := true }
          ⟨0, 1, 0, 0, 0, none⟩).map (fun st => st.response_error)
        = some false := by
  exact ⟨by decide, rfl⟩

/-- C3 amended: `add_partition_response` leaves `response_error`
    unchanged; the error-observed flag is set by the enclosing
    per-partition fold of the fetch handler (modelled from the spec as
    `fold_read_result`), under which a non-success error code does set
    the flag. -/
theorem c3_error_flag_amended :
    (∀ (st : op_context) (r : fetch_response.partition_response)
        (st1 : op_context), add_partition_response st r = some st1 →
        st1.response_error = st.response_error) ∧
    (∀ (st : op_context) (r : fetch_response.partition_response)
        (st1 : op_context), fold_read_result st r = some st1 →
        r.error ≠ 0 → st1.response_error = true) := by
  constructor
  · intro st r st1 hadd
    unfold add_partition_response at hadd
    by_cases hemp : st.response.partitions.isEmpty
    · simp [hemp] at hadd
    · simp only [hemp, Bool.false_eq_true, if_false] at hadd
      cases hrec : r.record_set with
      | none =>
        simp only [hrec, Option.some.injEq] at hadd
        subst hadd
        rfl
      | some b =>
        simp only [hrec, Option.some.injEq] at hadd
        subst hadd
        rfl
  · intro st r st1 hfold herr
    unfold fold_read_result at hfold
    cases hadd : add_partition_response st r with
    | none => rw [hadd] at hfold; simp at hfold
    | some st2 =>
      rw [hadd] at hfold
      simp only [Option.map_some', Option.some.injEq] at hfold
      subst hfold
      simp [herr]

/-- Witness for C3: the concrete fold of an error result through
    `fold_read_result` raises the flag. -/
theorem c3_witness :
    ({ request := ⟨0, 0, 0, 0, 0, 0, 0, [], []⟩
       response := { partitions := [⟨"t", [⟨0, 1, 0, 0, 0, none⟩]⟩] }
       bytes_left := 5
       deadline := none
       response_size := 0
       response_error := true
       initial_fetch := true } : op_context).response_error = true :=
  c3_error_flag_amended.2
    { request := ⟨0, 0, 0, 0, 0, 0, 0, [], []⟩
      response := { partitions := [⟨"t", []⟩] }
      bytes_left := 5
      deadline := none
      response_size := 0
      response_error := false
      initial_fetch := true }
    ⟨0, 1, 0, 0, 0, none⟩
    { request := ⟨0, 0, 0, 0, 0, 0, 0, [], []⟩
      response := { partitions := [⟨"t", [⟨0, 1, 0, 0, 0, none⟩]⟩] }
      bytes_left := 5
      deadline := none
      response_size := 0
      response_error := true
      initial_fetch := true }
    (by rfl) (by decide)

/-- Counterexample for C1 as stated: at a state with a positive
    debounce delay, `min_bytes = 0`, a non-empty topic list, no
    observed error, and `response_size = 2^31` (reachable, since
    `add_partition_response` never bounds `response_size`), the
    mathematical reading `response_size >= min_bytes` holds yet
    `should_stop_fetch` is `false`, because the comparison casts
    `response_size` to a signed 32-bit value, which wraps to -2^31. -/
theorem c1_counterexample :
    ¬ (should_stop_fetch
          { request := ⟨0, 1, 0, 1000, 0, 0, 0, [⟨"a", [⟨0, 0, 0, 0, 0⟩]⟩], []⟩
            response := {}
            bytes_left := 0
            deadline := some 1
            response_size := 2 ^ 31
            response_error := false
            initial_fetch := false } = true ↔
        (((⟨0, 1, 0, 1000, 0, 0, 0, [⟨"a", [⟨0, 0, 0, 0, 0⟩]⟩], []⟩ :
              fetch_request).max_wait_time ≤ 0) ∨
          ((⟨0, 1, 0, 1000, 0, 0, 0, [⟨"a", [⟨0, 0, 0, 0, 0⟩]⟩], []⟩ :
              fetch_request).min_bytes ≤ ((2 ^ 31 : Nat) : Int)) ∨
          ((⟨0, 1, 0, 1000, 0, 0, 0, [⟨"a", [⟨0, 0, 0, 0, 0⟩]⟩], []⟩ :
              fetch_request).topics = []) ∨
          False)) := by
  decide

/-- C1 amended: for every state whose accumulated `response_size` is
    below 2^31 (so that the `static_cast<int32_t>` in the comparison is
    value-preserving), `should_stop_fetch` is true exactly when the
    debounce delay is absent (`max_wait_time <= 0`), or the accumulated
    size reaches `min_bytes`, or the topic list is empty, or an error
    was observed; and with `max_wait_time <= 0` it is true regardless
    of accumulated bytes. -/
theorem c1_should_stop_fetch_amended :
    (∀ st : op_context, st.response_size < 2 ^ 31 →
        (should_stop_fetch st = true ↔
          (st.request.max_wait_time ≤ 0 ∨
            st.request.min_bytes ≤ (st.response_size : Int) ∨
            st.request.topics = [] ∨
            st.response_error = true))) ∧
    (∀ st : op_context, st.request.max_wait_time ≤ 0 →
        should_stop_fetch st = true) := by
  have hnone : ∀ st : op_context,
      st.request.debounce_delay.isNone = decide (st.request.max_wait_time ≤ 0) := by
    intro st
    unfold fetch_request.debounce_delay
    by_cases h : st.request.max_wait_time ≤ 0 <;> simp [h]
  constructor
  · intro st hlt
    have hcast : int32_of_size_t st.response_size = (st.response_size : Int) := by
      unfold int32_of_size_t
      rw [Nat.mod_eq_of_lt (by omega)]
      rw [if_pos hlt]
    unfold should_stop_fetch
    rw [hnone, hcast]
    simp [List.isEmpty_iff, or_assoc]
  · intro st hle
    unfold should_stop_fetch
    rw [hnone]
    simp [hle]

/-- Witness for C1 amended, at a concrete state with a small
    accumulated size that meets `min_bytes`. -/
theorem c1_witness :
    should_stop_fetch
        { request := ⟨0, 1, 10, 1000, 0, 0, 0, [⟨"a", []⟩], []⟩
          response := {}
          bytes_left := 0
          deadline := some 1
          response_size := 64
          response_error := false
          initial_fetch := false } = true ↔
      (((1 : Int) ≤ 0) ∨
        ((10 : Int) ≤ ((64 : Nat) : Int)) ∨
        ([⟨"a", []⟩] = ([] : List fetch_request.topic)) ∨
        (false = true)) :=
  c1_should_stop_fetch_amended.1
    { request := ⟨0, 1, 10, 1000, 0, 0, 0, [⟨"a", []⟩], []⟩
      response := {}
      bytes_left := 0
      deadline := some 1
      response_size := 64
      response_error := false
      initial_fetch := false }
    (by decide)

/-- Counterexample for C2 as stated: with `max_bytes = 100` the seed
    `min(MAX_SIZE, size_t(max_bytes))` is 100, yet folding a single
    partition result carrying a 200-byte record set yields
    `response_size = 200`: `add_partition_response` adds the full
    payload size to `response_size` and only saturates `bytes_left`. -/
theorem c2_counterexample :
    (fetch_run
          (op_context_init ⟨0, 1, 0, 3, 0, 0, 0, [⟨"t", []⟩], []⟩)
          [.start_topic ⟨"t", []⟩,
            .add_result ⟨0, 0, 0, 0, 0, some ⟨[9, 9, 9, 9, 9]⟩⟩]).map
        (fun st => st.response_size) = some 5 ∧
      min MAX_SIZE
          (size_t_of_int32
            (⟨0, 1, 0, 3, 0, 0, 0, [⟨"t", []⟩], []⟩ :
                fetch_request).max_bytes) = 3 ∧
      ¬ (5 ≤ 3) := by
  refine ⟨rfl, rfl, by decide⟩

/-- One fold step keeps `response_size + bytes_left` under any bound it
    started under, provided an added payload fits the remaining
    budget. -/
theorem fetch_step_budget (st st1 : op_context) (e : fetch_event) (B : Nat)
    (hstep : fetch_step st e = some st1)
    (hcap : ∀ r, e = .add_result r → payload_bytes r ≤ st.bytes_left)
    (hinv : st.response_size + st.bytes_left ≤ B) :
    st1.response_size + st1.bytes_left ≤ B := by
  cases e with
  | start_topic t =>
    simp only [fetch_step, Option.some.injEq] at hstep
    subst hstep
    exact hinv
  | add_result r =>
    have hr := hcap r rfl
    simp only [fetch_step] at hstep
    unfold add_partition_response at hstep
    by_cases hemp : st.response.partitions.isEmpty
    · simp [hemp] at hstep
    · simp only [hemp, Bool.false_eq_true, if_false] at hstep
      cases hrec : r.record_set with
      | none =>
        simp only [hrec, Option.some.injEq] at hstep
        subst hstep
        exact hinv
      | some b =>
        have hr2 : b.size_bytes ≤ st.bytes_left := by
          simpa [payload_bytes, hrec] using hr
        simp only [hrec, Option.some.injEq] at hstep
        subst hstep
        show st.response_size + b.size_bytes
            + (st.bytes_left - min st.bytes_left b.size_bytes) ≤ B
        omega

/-- Running a capped trace keeps `response_size + bytes_left` under any
    bound it started under. -/
theorem fetch_run_budget (es : List fetch_event) (st st1 : op_context)
    (B : Nat) (hrun : fetch_run st es = some st1)
    (hcap : capped_trace st es = true)
    (hinv : st.response_size + st.bytes_left ≤ B) :
    st1.response_size + st1.bytes_left ≤ B := by
  induction es generalizing st with
  | nil =>
    simp only [fetch_run, Option.some.injEq] at hrun
    subst hrun
    exact hinv
  | cons e es ih =>
    unfold fetch_run at hrun
    unfold capped_trace at hcap
    cases hstep : fetch_step st e with
    | none => rw [hstep] at hrun; simp at hrun
    | some st2 =>
      rw [hstep] at hrun hcap
      simp only [Bool.and_eq_true] at hcap
      refine ih st2 hrun hcap.2 ?_
      refine fetch_step_budget st st2 e B hstep ?_ hinv
      intro r he
      subst he
      simpa using hcap.1

/-- C2 amended: starting from a freshly initialized context, any
    successful sequence of topic starts and result folds in which each
    folded payload fits the `bytes_left` remaining at its fold (as when
    reads honor a strict byte cap) keeps `response_size` within
    `min(MAX_SIZE, size_t(max_bytes))`, the value `bytes_left` is
    seeded with.  Without the fit condition the bound fails, as the
    counterexample shows. -/
theorem c2_response_size_bounded_amended (req : fetch_request)
    (es : List fetch_event) (st1 : op_context)
    (hrun : fetch_run (op_context_init req) es = some st1)
    (hcap : capped_trace (op_context_init req) es = true) :
    st1.response_size ≤ min MAX_SIZE (size_t_of_int32 req.max_bytes) := by
  have h := fetch_run_budget es (op_context_init req) st1
    (min MAX_SIZE (size_t_of_int32 req.max_bytes)) hrun hcap
    (by unfold op_context_init; dsimp only; omega)
  omega

/-- Witness for C2 amended: a capped concrete trace (budget 100,
    payload 50) stays within the seed. -/
theorem c2_witness :
    ({ request := ⟨0, 1, 0, 3, 0, 0, 0, [⟨"t", []⟩], []⟩
       response := { partitions :=
          [⟨"t", [⟨0, 0, 0, 0, 0, some ⟨[9, 9]⟩⟩]⟩] }
       bytes_left := 1
       deadline := some 1
       response_size := 2
       response_error := false
       initial_fetch := true } : op_context).response_size ≤
      min MAX_SIZE
        (size_t_of_int32
          (⟨0, 1, 0, 3, 0, 0, 0, [⟨"t", []⟩], []⟩ :
              fetch_request).max_bytes) :=
  c2_response_size_bounded_amended ⟨0, 1, 0, 3, 0, 0, 0, [⟨"t", []⟩], []⟩
    [.start_topic ⟨"t", []⟩,
      .add_result ⟨0, 0, 0, 0, 0, some ⟨[9, 9]⟩⟩]
    { request := ⟨0, 1, 0, 3, 0, 0, 0, [⟨"t", []⟩], []⟩
      response := { partitions :=
        [⟨"t", [⟨0, 0, 0, 0, 0, some ⟨[9, 9]⟩⟩]⟩] }
      bytes_left := 1
      deadline := some 1
      response_size := 2
      response_error := false
      initial_fetch := true }
    (by rfl) (by rfl)

namespace fetch_request

/-- Dropping at an in-range position exposes the element there. -/
theorem drop_eq_get_cons {α : Type} (l : List α) (i : Nat) (h : i < l.length) :
    l.drop i = l.get ⟨i, h⟩ :: l.drop (i + 1) := by
  rw [List.drop_eq_getElem_cons h, List.get_eq_getElem]

/-- One-step unfolding of `normalize`. -/
theorem normalize_eq (topics : List topic) (it : const_iterator) :
    normalize topics it =
      if h : it.topic_pos < topics.length then
        if it.part_pos = (topics.get ⟨it.topic_pos, h⟩).partitions.length then
          normalize topics ⟨true, it.topic_pos + 1, 0⟩
        else it
      else it := by
  rw [normalize]

/-- One-step unfolding of `traverse_from` with positive fuel. -/
theorem traverse_from_succ (topics : List topic) (fuel : Nat)
    (it : const_iterator) :
    traverse_from topics (fuel + 1) it =
      if h : it.topic_pos < topics.length then
        if h2 : it.part_pos <
            (topics.get ⟨it.topic_pos, h⟩).partitions.length then
          (it.new_topic, (topics.get ⟨it.topic_pos, h⟩).name,
              (topics.get ⟨it.topic_pos, h⟩).partitions.get ⟨it.part_pos, h2⟩)
            :: traverse_from topics fuel (iter_next topics it)
        else []
      else [] := rfl

/-- A topic suffix with no partitions at all flattens to nothing. -/
theorem flatten_spec_eq_nil (ts : List topic) (h : total_partitions ts = 0) :
    flatten_spec ts = [] := by
  induction ts with
  | nil => rfl
  | cons t ts ih =>
    simp only [total_partitions, List.map_cons, List.sum_cons] at h
    have h1 : t.partitions = [] :=
      List.eq_nil_of_length_eq_zero (by omega)
    have h2 : total_partitions ts = 0 := by
      unfold total_partitions
      omega
    unfold flatten_spec
    rw [List.flatMap_cons, h1]
    simpa [flatten_spec] using ih h2

/-- Splitting the partition count of a topic suffix at an in-range
    position. -/
theorem total_partitions_drop (topics : List topic) (i : Nat)
    (h : i < topics.length) :
    total_partitions (topics.drop i) =
      (topics.get ⟨i, h⟩).partitions.length
        + total_partitions (topics.drop (i + 1)) := by
  conv_lhs => rw [drop_eq_get_cons topics i h]
  unfold total_partitions
  rw [List.map_cons, List.sum_cons]

/-- Splitting the expected flat traversal at an in-range position whose
    topic has no partitions: that topic contributes nothing. -/
theorem flatten_spec_drop_nil (topics : List topic) (i : Nat)
    (hi : i < topics.length)
    (hparts : (topics.get ⟨i, hi⟩).partitions = []) :
    flatten_spec (topics.drop i) = flatten_spec (topics.drop (i + 1)) := by
  conv_lhs => rw [drop_eq_get_cons topics i hi]
  unfold flatten_spec
  rw [List.flatMap_cons, hparts]
  rfl

/-- Splitting the expected flat traversal at an in-range position whose
    topic has at least one partition: that topic contributes its first
    partition flagged, then the rest unflagged. -/
theorem flatten_spec_drop_cons (topics : List topic) (i : Nat)
    (hi : i < topics.length) (q : partition) (qs : List partition)
    (hq : (topics.get ⟨i, hi⟩).partitions = q :: qs) :
    flatten_spec (topics.drop i) =
      (true, (topics.get ⟨i, hi⟩).name, q)
        :: (qs.map (fun x => (false, (topics.get ⟨i, hi⟩).name, x))
            ++ flatten_spec (topics.drop (i + 1))) := by
  conv_lhs => rw [drop_eq_get_cons topics i hi]
  unfold flatten_spec
  rw [List.flatMap_cons, hq]
  simp

/-- Core simulation: with enough fuel, the iterator loop started inside
    a topic (first statement) or at a normalized topic start (second
    statement) yields exactly the spec's flat traversal of the remaining
    suffix. -/
theorem traverse_from_spec : ∀ (fuel : Nat) (topics : List topic),
    (∀ (i : Nat) (h : i < topics.length) (p : Nat)
        (hp : p < (topics.get ⟨i, h⟩).partitions.length) (nt : Bool),
        (topics.get ⟨i, h⟩).partitions.length - p
            + total_partitions (topics.drop (i + 1)) ≤ fuel →
        traverse_from topics fuel ⟨nt, i, p⟩ =
          (nt, (topics.get ⟨i, h⟩).name,
              (topics.get ⟨i, h⟩).partitions.get ⟨p, hp⟩)
            :: (((topics.get ⟨i, h⟩).partitions.drop (p + 1)).map
                  (fun q => (false, (topics.get ⟨i, h⟩).name, q))
                ++ flatten_spec (topics.drop (i + 1)))) ∧
    (∀ i : Nat,
        total_partitions (topics.drop i) ≤ fuel →
        traverse_from topics fuel (normalize topics ⟨true, i, 0⟩) =
          flatten_spec (topics.drop i)) := by
  intro fuel
  induction fuel with
  | zero =>
    intro topics
    constructor
    · intro i h p hp nt hb
      exfalso
      omega
    · intro i hb
      rw [flatten_spec_eq_nil _ (Nat.le_zero.mp hb)]
      rfl
  | succ fuel ih =>
    intro topics
    have W : ∀ (i : Nat) (h : i < topics.length) (p : Nat)
        (hp : p < (topics.get ⟨i, h⟩).partitions.length) (nt : Bool),
        (topics.get ⟨i, h⟩).partitions.length - p
            + total_partitions (topics.drop (i + 1)) ≤ fuel + 1 →
        traverse_from topics (fuel + 1) ⟨nt, i, p⟩ =
          (nt, (topics.get ⟨i, h⟩).name,
              (topics.get ⟨i, h⟩).partitions.get ⟨p, hp⟩)
            :: (((topics.get ⟨i, h⟩).partitions.drop (p + 1)).map
                  (fun q => (false, (topics.get ⟨i, h⟩).name, q))
                ++ flatten_spec (topics.drop (i + 1))) := by
      intro i h p hp nt hb
      rw [traverse_from_succ, dif_pos h, dif_pos hp]
      have hnext : iter_next topics ⟨nt, i, p⟩ =
          normalize topics ⟨false, i, p + 1⟩ := rfl
      rw [hnext]
      by_cases hq : p + 1 < (topics.get ⟨i, h⟩).partitions.length
      · rw [normalize_eq, dif_pos h]
        rw [if_neg (by dsimp only; omega)]
        rw [(ih topics).1 i h (p + 1) hq false (by omega)]
        rw [drop_eq_get_cons (topics.get ⟨i, h⟩).partitions (p + 1) hq,
          List.map_cons]
        simp
      · have hq2 : p + 1 = (topics.get ⟨i, h⟩).partitions.length := by
          omega
        rw [normalize_eq, dif_pos h, if_pos (by dsimp only; omega)]
        rw [(ih topics).2 (i + 1) (by omega)]
        rw [hq2, List.drop_length, List.map_nil]
        simp
    refine ⟨W, ?_⟩
    have Naux : ∀ (n i : Nat), topics.length - i ≤ n →
        total_partitions (topics.drop i) ≤ fuel + 1 →
        traverse_from topics (fuel + 1) (normalize topics ⟨true, i, 0⟩) =
          flatten_spec (topics.drop i) := by
      intro n
      induction n with
      | zero =>
        intro i hni hb
        have hge : topics.length ≤ i := by omega
        rw [normalize_eq, dif_neg (by dsimp only; omega)]
        rw [traverse_from_succ, dif_neg (by dsimp only; omega)]
        rw [List.drop_eq_nil_of_le hge]
        rfl
      | succ n ihn =>
        intro i hni hb
        by_cases hi : i < topics.length
        · by_cases hpe : (topics.get ⟨i, hi⟩).partitions.length = 0
          · rw [normalize_eq, dif_pos hi, if_pos (by dsimp only; omega)]
            have hparts : (topics.get ⟨i, hi⟩).partitions = [] :=
              List.eq_nil_of_length_eq_zero hpe
            rw [flatten_spec_drop_nil topics i hi hparts]
            exact ihn (i + 1) (by omega)
              (by have hd := total_partitions_drop topics i hi; omega)
          · rw [normalize_eq, dif_pos hi, if_neg (by dsimp only; omega)]
            have h0 : 0 < (topics.get ⟨i, hi⟩).partitions.length :=
              Nat.pos_of_ne_zero hpe
            rw [W i hi 0 h0 true
              (by have hd := total_partitions_drop topics i hi; omega)]
            obtain ⟨q, qs, hqs⟩ :
                ∃ q qs, (topics.get ⟨i, hi⟩).partitions = q :: qs := by
              cases hl : (topics.get ⟨i, hi⟩).partitions with
              | nil => rw [hl] at h0; exact absurd h0 (by simp)
              | cons q qs => exact ⟨q, qs, rfl⟩
            rw [flatten_spec_drop_cons topics i hi q qs hqs]
            have hget : (topics.get ⟨i, hi⟩).partitions.get ⟨0, h0⟩ = q := by
              have hg := List.get_of_eq hqs ⟨0, h0⟩
              simpa using hg
            rw [hget, hqs]
            simp
        · have hge : topics.length ≤ i := by omega
          rw [normalize_eq, dif_neg (by dsimp only; omega)]
          rw [traverse_from_succ, dif_neg (by dsimp only; omega)]
          rw [List.drop_eq_nil_of_le hge]
          rfl
    intro i hb
    exact Naux topics.length i (by omega) hb

end fetch_request

/-- C4: traversing a request with the `const_iterator` from `cbegin` to
    `cend` yields the partitions in request order — topics in sequence
    order, partitions within a topic in sequence order — skipping topics
    with zero partitions entirely, with `new_topic` true exactly on the
    first yielded partition of each non-empty topic; in particular the
    topics `[A:[p0,p1], B:[], C:[p2]]` yield exactly
    `[(true,A,p0), (false,A,p1), (true,C,p2)]`. -/
theorem c4_traversal_order :
    (∀ topics : List fetch_request.topic,
        fetch_request.traverse topics = fetch_request.flatten_spec topics) ∧
    (∀ p0 p1 p2 : fetch_request.partition,
        fetch_request.traverse [⟨"A", [p0, p1]⟩, ⟨"B", []⟩, ⟨"C", [p2]⟩] =
          [(true, "A", p0), (false, "A", p1), (true, "C", p2)]) := by
  have hmain : ∀ topics : List fetch_request.topic,
      fetch_request.traverse topics = fetch_request.flatten_spec topics := by
    intro topics
    unfold fetch_request.traverse fetch_request.cbegin
    by_cases hemp : topics.isEmpty
    · have hnil : topics = [] := List.isEmpty_iff.mp hemp
      subst hnil
      rfl
    · rw [Bool.not_eq_true] at hemp
      rw [hemp]
      simp only [Bool.false_eq_true, if_false]
      have h := (fetch_request.traverse_from_spec
          (fetch_request.total_partitions topics) topics).2 0
        (by rw [List.drop_zero])
      rw [List.drop_zero] at h
      exact h
  exact ⟨hmain, fun p0 p1 p2 => by rw [hmain]; rfl⟩

/-- C6: two traversal cursors over the same request compare equal
    exactly when they reference the same topic position and, when that
    position is not the end of the topic sequence, also the same
    partition position; and a cursor equals `cend` exactly when it has
    passed every topic. -/
theorem c6_iterator_equality :
    (∀ (topics : List fetch_request.topic)
        (a b : fetch_request.const_iterator),
        fetch_request.iter_eq topics a b = true ↔
          (a.topic_pos = b.topic_pos ∧
            (a.topic_pos ≠ topics.length → a.part_pos = b.part_pos))) ∧
    (∀ (topics : List fetch_request.topic)
        (it : fetch_request.const_iterator),
        fetch_request.iter_eq topics it (fetch_request.cend topics) = true ↔
          it.topic_pos = topics.length) := by
  constructor
  · intro topics a b
    unfold fetch_request.iter_eq
    by_cases h1 : a.topic_pos = b.topic_pos
    · rw [if_pos h1]
      by_cases h2 : a.topic_pos = topics.length
      · rw [if_pos h2]
        exact ⟨fun _ => ⟨h1, fun hc => absurd h2 hc⟩, fun _ => rfl⟩
      · rw [if_neg h2]
        exact ⟨fun hpp => ⟨h1, fun _ => of_decide_eq_true hpp⟩,
          fun hand => decide_eq_true (hand.2 h2)⟩
    · rw [if_neg h1]
      exact ⟨fun hfalse => absurd hfalse (by simp),
        fun hand => absurd hand.1 h1⟩
  · intro topics it
    unfold fetch_request.iter_eq fetch_request.cend
    by_cases h1 : it.topic_pos = topics.length <;> simp [h1]

end Kafka
